import Mathlib

/-
  Verification of the `webp-converter` Rust library (`src/lib.rs`).

  The embedding models:
  * filesystem path values at the component level, with component names as
    byte lists, mirroring Rust `std::path::Path` / `OsStr` on Unix
    (`file_name`, `extension`, `with_extension`, `parent`, `join`);
  * UTF-8 validity/decoding, mirroring `OsStr::to_str`;
  * the directory tree walked by `walkdir::WalkDir` (depth first, each
    directory before its contents, in stored entry order; a missing root
    yields a single error item);
  * the image codec and the OS as an abstract environment (`image::open`,
    WebP encoding, `fs::create_dir_all` success, `save_with_format`
    success), since the codec is an external black box;
  * the side effects of a run as an explicit trace of events.

  `WebPConverter::convert_to_webp` (src/lib.rs lines 203-210) is embedded as
  `convertToWebp`; `WebPConverter::convert` (lines 136-151) as `runConvert`.
-/

namespace WebpConv

/-! ## Bytes and UTF-8 (OsStr::to_str, str::to_lowercase) -/

/-- A byte is modelled as a natural number (intended range 0..255). -/
abbrev Byte := Nat

/-- Is `b` a UTF-8 continuation byte (`10xxxxxx`)? -/
def isCont (b : Byte) : Bool := 0x80 ≤ b && b < 0xC0

/-- Decode a byte list as UTF-8, mirroring Rust's `str` validity rules:
rejects continuation bytes in lead position, overlong encodings, surrogate
code points and code points above `0x10FFFF`. Returns `none` exactly when
`OsStr::to_str` returns `None` on these bytes. -/
def utf8Decode : List Byte → Option (List Char)
  | [] => some []
  | b :: rest =>
    if b < 0x80 then
      (utf8Decode rest).map (fun cs => Char.ofNat b :: cs)
    else if b < 0xC2 then none
    else if b < 0xE0 then
      match rest with
      | c1 :: r =>
        if isCont c1 then
          (utf8Decode r).map (fun cs => Char.ofNat ((b - 0xC0) * 64 + (c1 - 0x80)) :: cs)
        else none
      | [] => none
    else if b < 0xF0 then
      match rest with
      | c1 :: c2 :: r =>
        if isCont c1 && isCont c2 then
          let cp := (b - 0xE0) * 4096 + (c1 - 0x80) * 64 + (c2 - 0x80)
          if 0x800 ≤ cp && (cp < 0xD800 || 0xE000 ≤ cp) then
            (utf8Decode r).map (fun cs => Char.ofNat cp :: cs)
          else none
        else none
      | _ => none
    else if b < 0xF5 then
      match rest with
      | c1 :: c2 :: c3 :: r =>
        if isCont c1 && isCont c2 && isCont c3 then
          let cp := (b - 0xF0) * 262144 + (c1 - 0x80) * 4096 + (c2 - 0x80) * 64 + (c3 - 0x80)
          if 0x10000 ≤ cp && cp ≤ 0x10FFFF then
            (utf8Decode r).map (fun cs => Char.ofNat cp :: cs)
          else none
        else none
      | _ => none
    else none

/-- Byte list of an ASCII string; used to build concrete path components. -/
def strBytes (s : String) : List Byte := s.data.map Char.toNat

/-! ## Path model (std::path::Path at component level) -/

/-- A parsed path component, as in `std::path::Component` (Unix: no prefix). -/
inductive Component where
  | rootDir
  | curDir
  | parentDir
  | normal (name : List Byte)
deriving DecidableEq, Repr

/-- A path is its (already parsed) component list, as produced by
`Path::components()`. -/
abbrev RPath := List Component

/-- `Path::file_name`: the final component when it is `Normal`, else `None`. -/
def fileName (p : RPath) : Option (List Byte) :=
  match p.getLast? with
  | some (Component.normal n) => some n
  | _ => none

/-- Index of the last `.` (byte 46) in a file name, if any. -/
def lastDotIdx (name : List Byte) : Option Nat :=
  match name.reverse.findIdx? (fun b => b == 46) with
  | none => none
  | some j => some (name.length - 1 - j)

/-- The extension part of a file name, per Rust's `rsplit_file_at_dot`:
`none` when the name is `".."`, has no `.`, or its only `.` is leading. -/
def extOfName (name : List Byte) : Option (List Byte) :=
  if name = [46, 46] then none
  else
    match lastDotIdx name with
    | none => none
    | some 0 => none
    | some i => some (name.drop (i + 1))

/-- The stem part of a file name (`Path::file_stem` on the name): everything
before the last `.`, or the whole name when there is no extension. -/
def stemOfName (name : List Byte) : List Byte :=
  if name = [46, 46] then name
  else
    match lastDotIdx name with
    | none => name
    | some 0 => name
    | some i => name.take i

/-- `PathBuf::set_extension name ext` for a nonempty `ext`: the stem
followed by `.` and the new extension. -/
def setExtension (name ext : List Byte) : List Byte :=
  stemOfName name ++ [46] ++ ext

/-- `Path::extension` of a path: the extension of its file name. -/
def rpathExtension (p : RPath) : Option (List Byte) :=
  (fileName p).bind extOfName

/-- `Path::parent`: `None` for the empty path and for the bare root,
otherwise the path without its last component. -/
def parent (p : RPath) : Option RPath :=
  if p = [] ∨ p = [Component.rootDir] then none else some p.dropLast

/-! ## The filter (src/lib.rs lines 141-143) -/

/-- The accepted extension set of `convert`, as character lists. -/
def acceptedExts : List (List Char) :=
  [['j', 'p', 'g'], ['j', 'p', 'e', 'g'], ['p', 'n', 'g'], ['g', 'i', 'f']]

/-- `str::to_lowercase`, modelled character-wise (the accepted set is ASCII,
where Rust's Unicode lowercasing and character-wise ASCII lowercasing agree). -/
def lowerChars (cs : List Char) : List Char := cs.map Char.toLower

/-- The classification performed inline by `convert`:
`path.extension()` (byte level), then `to_str()` (UTF-8 decode), then
`to_lowercase()` membership in `{jpg, jpeg, png, gif}`. -/
def accepts (p : RPath) : Bool :=
  match rpathExtension p with
  | none => false
  | some extB =>
    match utf8Decode extB with
    | none => false
    | some cs => acceptedExts.contains (lowerChars cs)

/-- The bytes of `"webp"`, the target extension. -/
def webpBytes : List Byte := strBytes "webp"

/-- Line 206: `Path::new(&self.output_dir).join(file_name).with_extension("webp")`
for a file name `name`: the output directory with one `Normal` component
holding the name with its extension replaced by `webp`. -/
def deriveOutputPath (outputDir : RPath) (name : List Byte) : RPath :=
  outputDir ++ [Component.normal (setExtension name webpBytes)]

/-- The output location of a source path under an output directory, when the
source path has a file name. -/
def outputLocation (outputDir : RPath) (p : RPath) : Option RPath :=
  (fileName p).map (deriveOutputPath outputDir)

/-! ## Environment: codec and OS, as black boxes (spec section 6) -/

/-- The external collaborators of the converter, abstracted:
`openImage` is `image::open` (filesystem read plus decode; `none` is a
decode/read failure), `encode` gives the bytes written for a decoded image
by `save_with_format(_, WebP)`, `mkdirOk` says whether
`fs::create_dir_all` succeeds on a directory, and `saveOk` whether the
encode-and-write of `save_with_format` succeeds at a path. -/
structure Env (Img : Type) where
  openImage : RPath → Option Img
  encode : Img → List Byte
  mkdirOk : RPath → Bool
  saveOk : RPath → Bool

/-- Observable side effects of a run, in order of occurrence.
`convertCall` marks an invocation of `convert_to_webp` by the batch driver;
`mkdirAll` a successful `fs::create_dir_all`; `write` a completed file
write of the given bytes; `writeFailed` a failed write attempt (its
on-disk outcome, possibly a partial file, is not modelled further). -/
inductive Effect where
  | convertCall (p : RPath)
  | mkdirAll (p : RPath)
  | write (p : RPath) (data : List Byte)
  | writeFailed (p : RPath)
deriving DecidableEq, Repr

/-- Error cases of the pipeline: a walk error, a decode failure from
`image::open`, a `create_dir_all` failure, a `save_with_format` failure. -/
inductive ConvError where
  | walkErr
  | decodeErr
  | mkdirErr
  | saveErr
deriving DecidableEq, Repr

/-- The outcome of a call: `Ok(())`, `Err(e)` via `?`, or a panic at an
`unwrap`. -/
inductive ConvResult where
  | ok
  | error (e : ConvError)
  | panic
deriving DecidableEq, Repr

/-- `WebPConverter::convert_to_webp` (src/lib.rs lines 203-210):
```
let img = image::open(path)?;
let file_name = path.file_name().unwrap().to_str().unwrap();
let output_path = Path::new(&self.output_dir).join(file_name).with_extension("webp");
fs::create_dir_all(output_path.parent().unwrap())?;
img.save_with_format(output_path, ImageFormat::WebP)?;
Ok(())
```
Returns the result together with the trace of effects it performed. -/
def convertToWebp {Img : Type} (env : Env Img) (outputDir : RPath) (path : RPath) :
    ConvResult × List Effect :=
  match env.openImage path with
  | none => (ConvResult.error ConvError.decodeErr, [])
  | some img =>
    match fileName path with
    | none => (ConvResult.panic, [])
    | some nameB =>
      match utf8Decode nameB with
      | none => (ConvResult.panic, [])
      | some _ =>
        let outPath := deriveOutputPath outputDir nameB
        match parent outPath with
        | none => (ConvResult.panic, [])
        | some par =>
          if env.mkdirOk par then
            if env.saveOk outPath then
              (ConvResult.ok, [Effect.mkdirAll par, Effect.write outPath (env.encode img)])
            else
              (ConvResult.error ConvError.saveErr,
                [Effect.mkdirAll par, Effect.writeFailed outPath])
          else (ConvResult.error ConvError.mkdirErr, [])

/-! ## The source tree and the walk (walkdir::WalkDir) -/

mutual
/-- A filesystem node: a regular file with contents, or a directory. -/
inductive FsTree where
  | file (data : List Byte)
  | dir (entries : FsEntries)

/-- Directory entries in the order the OS reports them to `walkdir`. -/
inductive FsEntries where
  | nil
  | cons (name : List Byte) (child : FsTree) (rest : FsEntries)
end

/-- One item yielded by the `WalkDir` iterator: an entry with its path and
whether `file_type().is_file()` holds, or an `Err` item. -/
inductive WalkItem where
  | entry (p : RPath) (isFile : Bool)
  | err
deriving DecidableEq, Repr

mutual
/-- Depth-first walk of a tree rooted at `base`: the root first, then each
directory's entries in order, each subdirectory before its own contents
(the `walkdir` default). -/
def walkTree (base : RPath) : FsTree → List WalkItem
  | FsTree.file _ => [WalkItem.entry base true]
  | FsTree.dir es => WalkItem.entry base false :: walkEntries base es

/-- Walk of a directory's entry list. -/
def walkEntries (base : RPath) : FsEntries → List WalkItem
  | FsEntries.nil => []
  | FsEntries.cons n child rest =>
      walkTree (base ++ [Component.normal n]) child ++ walkEntries base rest
end

/-- The items `WalkDir::new(source_dir)` yields: a single `Err` item when the
source root does not exist (`root = none`), else the walk of the tree. -/
def walkItems : Option FsTree → RPath → List WalkItem
  | none, _ => [WalkItem.err]
  | some t, src => walkTree src t

/-! ## The batch driver (src/lib.rs lines 136-151) -/

/-- The loop body of `convert`: for each walk item, `entry?` propagates an
`Err` item immediately; a regular file passing the extension filter is
handed to `convert_to_webp`, whose error (`?`) stops the loop. A
`convertCall` effect records each invocation. -/
def processItems {Img : Type} (env : Env Img) (outputDir : RPath) :
    List WalkItem → ConvResult × List Effect
  | [] => (ConvResult.ok, [])
  | WalkItem.err :: _ => (ConvResult.error ConvError.walkErr, [])
  | WalkItem.entry p isFile :: rest =>
    if isFile && accepts p then
      if (convertToWebp env outputDir p).1 = ConvResult.ok then
        let next := processItems env outputDir rest
        (next.1, Effect.convertCall p :: (convertToWebp env outputDir p).2 ++ next.2)
      else
        ((convertToWebp env outputDir p).1,
          Effect.convertCall p :: (convertToWebp env outputDir p).2)
    else processItems env outputDir rest

/-- `WebPConverter::convert`: walk `source_dir` and process every item.
`root = none` models a nonexistent `source_dir`. -/
def runConvert {Img : Type} (env : Env Img) (root : Option FsTree)
    (sourceDir outputDir : RPath) : ConvResult × List Effect :=
  processItems env outputDir (walkItems root sourceDir)

/-! ## Trace observations -/

/-- The paths on which the batch driver invoked `convert_to_webp`. -/
def invokedPaths (effs : List Effect) : List RPath :=
  effs.filterMap fun e =>
    match e with
    | Effect.convertCall p => some p
    | _ => none

/-- The paths of completed file writes. -/
def producedPaths (effs : List Effect) : List RPath :=
  effs.filterMap fun e =>
    match e with
    | Effect.write p _ => some p
    | _ => none

/-- The paths of attempted file writes, completed or failed. -/
def attemptedPaths (effs : List Effect) : List RPath :=
  effs.filterMap fun e =>
    match e with
    | Effect.write p _ => some p
    | Effect.writeFailed p => some p
    | _ => none

/-- The accepted regular files among the walk items, in walk order. -/
def acceptedFiles (items : List WalkItem) : List RPath :=
  items.filterMap fun i =>
    match i with
    | WalkItem.entry p true => if accepts p then some p else none
    | _ => none

/-- Update an association list, keeping insertion order of first writes. -/
def updateAssoc (m : List (RPath × List Byte)) (p : RPath) (d : List Byte) :
    List (RPath × List Byte) :=
  if m.any (fun e => e.1 == p) then
    m.map (fun e => if e.1 == p then (p, d) else e)
  else m ++ [(p, d)]

/-- The output files present after replaying a trace: each completed write
stores its bytes at its path, later writes overwriting earlier ones. -/
def finalState (effs : List Effect) : List (RPath × List Byte) :=
  effs.foldl
    (fun m e =>
      match e with
      | Effect.write p d => updateAssoc m p d
      | _ => m)
    []

/-- Check that every write in a trace is preceded by a `mkdirAll` of the
written path's parent directory. -/
def mkdirCheck (dirs : List RPath) : List Effect → Bool
  | [] => true
  | Effect.mkdirAll p :: rest => mkdirCheck (p :: dirs) rest
  | Effect.write p _ :: rest => dirs.contains p.dropLast && mkdirCheck dirs rest
  | Effect.writeFailed p :: rest => dirs.contains p.dropLast && mkdirCheck dirs rest
  | Effect.convertCall _ :: rest => mkdirCheck dirs rest

/-- Every attempted write's parent directory was created earlier in the trace. -/
def mkdirBeforeWrites (effs : List Effect) : Bool := mkdirCheck [] effs

/-- The effect trace of a batch run in which every conversion succeeds: for
each accepted file, its invocation marker followed by its conversion's
effects. -/
def okTrace {Img : Type} (env : Env Img) (out : RPath) : List RPath → List Effect
  | [] => []
  | p :: ps => Effect.convertCall p :: (convertToWebp env out p).2 ++ okTrace env out ps

/-- The result of the run as the first failure in stage order: the first
`Err` walk item or failing conversion of an accepted file, `ok` when none. -/
def firstFailure {Img : Type} (env : Env Img) (out : RPath) : List WalkItem → ConvResult
  | [] => ConvResult.ok
  | WalkItem.err :: _ => ConvResult.error ConvError.walkErr
  | WalkItem.entry p isFile :: rest =>
    if isFile && accepts p then
      if (convertToWebp env out p).1 = ConvResult.ok then firstFailure env out rest
      else (convertToWebp env out p).1
    else firstFailure env out rest

/-! ## Equation lemmas for `convertToWebp` -/

theorem parent_deriveOutputPath (d : RPath) (n : List Byte) :
    parent (deriveOutputPath d n) = some d := by
  unfold parent deriveOutputPath
  rw [if_neg, List.dropLast_concat]
  rintro (h | h)
  · exact absurd h (by simp)
  · have h2 := congrArg List.getLast? h
    rw [List.getLast?_concat] at h2
    simp at h2

section Equations

variable {Img : Type} (env : Env Img) (out p : RPath)

theorem convert_eq_decodeErr (h : env.openImage p = none) :
    convertToWebp env out p = (ConvResult.error ConvError.decodeErr, []) := by
  simp only [convertToWebp, h]

theorem convert_eq_noName {img : Img} (h : env.openImage p = some img)
    (hn : fileName p = none) : convertToWebp env out p = (ConvResult.panic, []) := by
  simp only [convertToWebp, h, hn]

theorem convert_eq_badUtf8 {img : Img} {n : List Byte} (h : env.openImage p = some img)
    (hn : fileName p = some n) (hu : utf8Decode n = none) :
    convertToWebp env out p = (ConvResult.panic, []) := by
  simp only [convertToWebp, h, hn, hu, parent_deriveOutputPath]

theorem convert_eq_mkdirErr {img : Img} {n : List Byte} {cs : List Char}
    (h : env.openImage p = some img) (hn : fileName p = some n)
    (hu : utf8Decode n = some cs) (hm : env.mkdirOk out = false) :
    convertToWebp env out p = (ConvResult.error ConvError.mkdirErr, []) := by
  simp only [convertToWebp, h, hn, hu, parent_deriveOutputPath]
  simp [hm]

theorem convert_eq_saveErr {img : Img} {n : List Byte} {cs : List Char}
    (h : env.openImage p = some img) (hn : fileName p = some n)
    (hu : utf8Decode n = some cs) (hm : env.mkdirOk out = true)
    (hs : env.saveOk (deriveOutputPath out n) = false) :
    convertToWebp env out p =
      (ConvResult.error ConvError.saveErr,
        [Effect.mkdirAll out, Effect.writeFailed (deriveOutputPath out n)]) := by
  simp only [convertToWebp, h, hn, hu, parent_deriveOutputPath]
  simp [hm, hs]

theorem convert_eq_ok {img : Img} {n : List Byte} {cs : List Char}
    (h : env.openImage p = some img) (hn : fileName p = some n)
    (hu : utf8Decode n = some cs) (hm : env.mkdirOk out = true)
    (hs : env.saveOk (deriveOutputPath out n) = true) :
    convertToWebp env out p =
      (ConvResult.ok,
        [Effect.mkdirAll out, Effect.write (deriveOutputPath out n) (env.encode img)]) := by
  simp only [convertToWebp, h, hn, hu, parent_deriveOutputPath]
  simp [hm, hs]

end Equations

/-! ## Observation lemmas on traces -/

section Obs

variable (p q : RPath) (d : List Byte) (l l₂ : List Effect)

@[simp] theorem invokedPaths_nil : invokedPaths [] = [] := rfl

@[simp] theorem invokedPaths_call :
    invokedPaths (Effect.convertCall p :: l) = p :: invokedPaths l := rfl

@[simp] theorem invokedPaths_mkdir :
    invokedPaths (Effect.mkdirAll p :: l) = invokedPaths l := rfl

@[simp] theorem invokedPaths_write :
    invokedPaths (Effect.write p d :: l) = invokedPaths l := rfl

@[simp] theorem invokedPaths_writeFailed :
    invokedPaths (Effect.writeFailed p :: l) = invokedPaths l := rfl

@[simp] theorem invokedPaths_append :
    invokedPaths (l ++ l₂) = invokedPaths l ++ invokedPaths l₂ :=
  List.filterMap_append l l₂ _

@[simp] theorem producedPaths_nil : producedPaths [] = [] := rfl

@[simp] theorem producedPaths_call :
    producedPaths (Effect.convertCall p :: l) = producedPaths l := rfl

@[simp] theorem producedPaths_mkdir :
    producedPaths (Effect.mkdirAll p :: l) = producedPaths l := rfl

@[simp] theorem producedPaths_write :
    producedPaths (Effect.write p d :: l) = p :: producedPaths l := rfl

@[simp] theorem producedPaths_writeFailed :
    producedPaths (Effect.writeFailed p :: l) = producedPaths l := rfl

@[simp] theorem producedPaths_append :
    producedPaths (l ++ l₂) = producedPaths l ++ producedPaths l₂ :=
  List.filterMap_append l l₂ _

@[simp] theorem attemptedPaths_nil : attemptedPaths [] = [] := rfl

@[simp] theorem attemptedPaths_call :
    attemptedPaths (Effect.convertCall p :: l) = attemptedPaths l := rfl

@[simp] theorem attemptedPaths_mkdir :
    attemptedPaths (Effect.mkdirAll p :: l) = attemptedPaths l := rfl

@[simp] theorem attemptedPaths_write :
    attemptedPaths (Effect.write p d :: l) = p :: attemptedPaths l := rfl

@[simp] theorem attemptedPaths_writeFailed :
    attemptedPaths (Effect.writeFailed p :: l) = p :: attemptedPaths l := rfl

@[simp] theorem attemptedPaths_append :
    attemptedPaths (l ++ l₂) = attemptedPaths l ++ attemptedPaths l₂ :=
  List.filterMap_append l l₂ _

@[simp] theorem acceptedFiles_nil : acceptedFiles [] = [] := rfl

@[simp] theorem acceptedFiles_err (items : List WalkItem) :
    acceptedFiles (WalkItem.err :: items) = acceptedFiles items := rfl

@[simp] theorem acceptedFiles_dir (items : List WalkItem) :
    acceptedFiles (WalkItem.entry p false :: items) = acceptedFiles items := rfl

theorem acceptedFiles_file (items : List WalkItem) :
    acceptedFiles (WalkItem.entry p true :: items) =
      if accepts p then p :: acceptedFiles items else acceptedFiles items := by
  by_cases h : accepts p <;> simp [acceptedFiles, List.filterMap_cons, h]

end Obs

/-! ## Master case analysis of `convertToWebp` -/

theorem convert_cases {Img : Type} (env : Env Img) (out p : RPath) :
    convertToWebp env out p = (ConvResult.error ConvError.decodeErr, []) ∨
    convertToWebp env out p = (ConvResult.panic, []) ∨
    convertToWebp env out p = (ConvResult.error ConvError.mkdirErr, []) ∨
    ∃ n, fileName p = some n ∧
      (convertToWebp env out p =
          (ConvResult.error ConvError.saveErr,
            [Effect.mkdirAll out, Effect.writeFailed (deriveOutputPath out n)]) ∨
        ∃ img, env.openImage p = some img ∧
          convertToWebp env out p =
            (ConvResult.ok,
              [Effect.mkdirAll out,
                Effect.write (deriveOutputPath out n) (env.encode img)])) := by
  cases ho : env.openImage p with
  | none => exact Or.inl (convert_eq_decodeErr env out p ho)
  | some img =>
    cases hn : fileName p with
    | none => exact Or.inr (Or.inl (convert_eq_noName env out p ho hn))
    | some n =>
      cases hu : utf8Decode n with
      | none => exact Or.inr (Or.inl (convert_eq_badUtf8 env out p ho hn hu))
      | some cs =>
        cases hm : env.mkdirOk out with
        | false => exact Or.inr (Or.inr (Or.inl (convert_eq_mkdirErr env out p ho hn hu hm)))
        | true =>
          cases hs : env.saveOk (deriveOutputPath out n) with
          | false =>
            exact Or.inr (Or.inr (Or.inr
              ⟨n, rfl, Or.inl (convert_eq_saveErr env out p ho hn hu hm hs)⟩))
          | true =>
            exact Or.inr (Or.inr (Or.inr
              ⟨n, rfl, Or.inr ⟨img, rfl, convert_eq_ok env out p ho hn hu hm hs⟩⟩))

/-- A successful call has the full effect shape: one `mkdirAll` of the output
directory, then one write at the derived output path. -/
theorem convert_ok_shape {Img : Type} (env : Env Img) (out p : RPath)
    (h : (convertToWebp env out p).1 = ConvResult.ok) :
    ∃ n img, fileName p = some n ∧ env.openImage p = some img ∧
      convertToWebp env out p =
        (ConvResult.ok,
          [Effect.mkdirAll out, Effect.write (deriveOutputPath out n) (env.encode img)]) := by
  rcases convert_cases env out p with hc | hc | hc | ⟨n, hn, hc | ⟨img, ho, hc⟩⟩ <;>
    rw [hc] at h
  · exact absurd h (by simp)
  · exact absurd h (by simp)
  · exact absurd h (by simp)
  · exact absurd h (by simp)
  · exact ⟨n, img, hn, ho, hc⟩

/-! ## Lemmas on the batch driver -/

section Driver

variable {Img : Type} (env : Env Img) (out : RPath)

theorem processItems_fst (items : List WalkItem) :
    (processItems env out items).1 = firstFailure env out items := by
  induction items with
  | nil => rfl
  | cons i rest ih =>
    cases i with
    | err => rfl
    | entry p b =>
      by_cases h1 : (b && accepts p) = true
      · by_cases h2 : (convertToWebp env out p).1 = ConvResult.ok
        · simp [processItems, firstFailure, h1, h2, ih]
        · simp [processItems, firstFailure, h1, h2]
      · simp [processItems, firstFailure, h1, ih]

theorem processItems_ok_iff (items : List WalkItem) :
    (processItems env out items).1 = ConvResult.ok ↔
      (WalkItem.err ∉ items ∧
        ∀ p ∈ acceptedFiles items, (convertToWebp env out p).1 = ConvResult.ok) := by
  induction items with
  | nil => simp [processItems]
  | cons i rest ih =>
    cases i with
    | err => simp [processItems]
    | entry p b =>
      cases b with
      | false => simpa [processItems] using ih
      | true =>
        by_cases ha : accepts p = true
        · by_cases h2 : (convertToWebp env out p).1 = ConvResult.ok
          · simp [processItems, ha, h2, acceptedFiles_file, ih]
          · simp [processItems, ha, h2, acceptedFiles_file]
        · simp only [Bool.not_eq_true] at ha
          simpa [processItems, ha, acceptedFiles_file] using ih

theorem processItems_trace (items : List WalkItem)
    (h : (processItems env out items).1 = ConvResult.ok) :
    (processItems env out items).2 = okTrace env out (acceptedFiles items) := by
  induction items with
  | nil => rfl
  | cons i rest ih =>
    cases i with
    | err => exact absurd h (by simp [processItems])
    | entry p b =>
      cases b with
      | false => simpa [processItems] using ih (by simpa [processItems] using h)
      | true =>
        by_cases ha : accepts p = true
        · by_cases h2 : (convertToWebp env out p).1 = ConvResult.ok
          · have hrest : (processItems env out rest).1 = ConvResult.ok := by
              simpa [processItems, ha, h2] using h
            simp [processItems, ha, h2, acceptedFiles_file, okTrace, ih hrest]
          · simp [processItems, ha, h2] at h
        · simp only [Bool.not_eq_true] at ha
          simpa [processItems, ha, acceptedFiles_file] using
            ih (by simpa [processItems, ha] using h)

theorem okTrace_obs (ps : List RPath)
    (h : ∀ p ∈ ps, (convertToWebp env out p).1 = ConvResult.ok) :
    invokedPaths (okTrace env out ps) = ps ∧
      producedPaths (okTrace env out ps) = ps.filterMap (outputLocation out) ∧
      attemptedPaths (okTrace env out ps) = ps.filterMap (outputLocation out) := by
  induction ps with
  | nil => simp [okTrace]
  | cons p ps ih =>
    obtain ⟨n, img, hn, _, hc⟩ :=
      convert_ok_shape env out p (h p (List.mem_cons_self p ps))
    obtain ⟨ih1, ih2, ih3⟩ := ih (fun q hq => h q (List.mem_cons_of_mem p hq))
    refine ⟨?_, ?_, ?_⟩ <;>
      simp [okTrace, hc, List.filterMap_cons, outputLocation, hn, ih1, ih2, ih3]

/-- `convert_to_webp` itself never emits an invocation marker. -/
theorem invokedPaths_convert (p : RPath) :
    invokedPaths (convertToWebp env out p).2 = [] := by
  rcases convert_cases env out p with hc | hc | hc | ⟨n, hn, hc | ⟨img, ho, hc⟩⟩ <;>
    rw [hc] <;> rfl

/-- Soundness of the filter in any run, aborted or not: only accepted
regular files are ever handed to the converter. -/
theorem processItems_invoked_sub (items : List WalkItem) :
    ∀ q ∈ invokedPaths (processItems env out items).2, q ∈ acceptedFiles items := by
  induction items with
  | nil => intro q hq; exact absurd hq (by simp [processItems])
  | cons i rest ih =>
    cases i with
    | err => intro q hq; exact absurd hq (by simp [processItems])
    | entry p b =>
      intro q hq
      by_cases hcond : (b && accepts p) = true
      · have hba : b = true ∧ accepts p = true := by simpa using hcond
        obtain ⟨hb, ha⟩ := hba
        subst hb
        by_cases h2 : (convertToWebp env out p).1 = ConvResult.ok
        · have hq' : q = p ∨ q ∈ invokedPaths (processItems env out rest).2 := by
            simpa [processItems, hcond, h2, invokedPaths_convert] using hq
          rw [acceptedFiles_file, if_pos ha]
          rcases hq' with rfl | hq'
          · exact List.mem_cons_self _ _
          · exact List.mem_cons_of_mem _ (ih q hq')
        · have hq' : q = p := by
            simpa [processItems, hcond, h2, invokedPaths_convert] using hq
          rw [acceptedFiles_file, if_pos ha, hq']
          exact List.mem_cons_self _ _
      · cases b with
        | true =>
          have ha : accepts p = false := by
            cases hb : accepts p
            · rfl
            · exact absurd (by rw [hb]; rfl) hcond
          rw [acceptedFiles_file, if_neg (by rw [ha]; exact Bool.false_ne_true)]
          simp only [processItems, hcond, if_neg] at hq
          · exact ih q (by simpa [hcond] using hq)
        | false =>
          rw [acceptedFiles_dir]
          exact ih q (by simpa [processItems, hcond] using hq)

/-- Every write a run attempts, even an aborting run, is preceded by the
creation of its parent directory. -/
theorem mkdirCheck_processItems (items : List WalkItem) :
    ∀ dirs, mkdirCheck dirs (processItems env out items).2 = true := by
  induction items with
  | nil => intro dirs; rfl
  | cons i rest ih =>
    cases i with
    | err => intro dirs; rfl
    | entry p b =>
      intro dirs
      by_cases hcond : (b && accepts p) = true
      · rcases convert_cases env out p with hc | hc | hc | ⟨n, hn, hc | ⟨img, ho, hc⟩⟩
        · simp [processItems, hcond, hc, mkdirCheck]
        · simp [processItems, hcond, hc, mkdirCheck]
        · simp [processItems, hcond, hc, mkdirCheck]
        · have hdl : (deriveOutputPath out n).dropLast = out := by
            unfold deriveOutputPath
            exact List.dropLast_concat
          simp [processItems, hcond, hc, mkdirCheck, hdl, List.contains_cons]
        · have hdl : (deriveOutputPath out n).dropLast = out := by
            unfold deriveOutputPath
            exact List.dropLast_concat
          simp [processItems, hcond, hc, mkdirCheck, hdl, List.contains_cons,
            ih (out :: dirs)]
      · simp only [processItems, hcond, if_neg, Bool.not_eq_true]
        simpa [hcond] using ih dirs

theorem mkdirCheck_okTrace (ps : List RPath)
    (h : ∀ p ∈ ps, (convertToWebp env out p).1 = ConvResult.ok) :
    ∀ dirs, mkdirCheck dirs (okTrace env out ps) = true := by
  induction ps with
  | nil => intro dirs; rfl
  | cons p ps ih =>
    intro dirs
    obtain ⟨n, img, hn, _, hc⟩ :=
      convert_ok_shape env out p (h p (List.mem_cons_self p ps))
    have hdl : (deriveOutputPath out n).dropLast = out := by
      unfold deriveOutputPath
      exact List.dropLast_concat
    simp only [okTrace, hc, List.cons_append, List.nil_append, mkdirCheck, hdl]
    rw [List.contains_cons]
    simp [ih (fun q hq => h q (List.mem_cons_of_mem p hq)) (out :: dirs)]

end Driver

/-! ## Run-to-run simulation (used for path-set stability) -/

section Sim

variable {I1 I2 : Type} (e1 : Env I1) (e2 : Env I2)

theorem convert_sim
    (hdec : ∀ q, (e1.openImage q).isSome = (e2.openImage q).isSome)
    (hmk : ∀ q, e1.mkdirOk q = e2.mkdirOk q)
    (hsv : ∀ q, e1.saveOk q = e2.saveOk q) (out p : RPath) :
    (convertToWebp e1 out p).1 = (convertToWebp e2 out p).1 ∧
      producedPaths (convertToWebp e1 out p).2 = producedPaths (convertToWebp e2 out p).2 := by
  cases h1 : e1.openImage p with
  | none =>
    cases h2 : e2.openImage p with
    | none =>
      rw [convert_eq_decodeErr e1 out p h1, convert_eq_decodeErr e2 out p h2]
      exact ⟨rfl, rfl⟩
    | some i2 =>
      have hq := hdec p
      rw [h1, h2] at hq
      simp at hq
  | some i1 =>
    cases h2 : e2.openImage p with
    | none =>
      have hq := hdec p
      rw [h1, h2] at hq
      simp at hq
    | some i2 =>
      cases hn : fileName p with
      | none =>
        rw [convert_eq_noName e1 out p h1 hn, convert_eq_noName e2 out p h2 hn]
        exact ⟨rfl, rfl⟩
      | some n =>
        cases hu : utf8Decode n with
        | none =>
          rw [convert_eq_badUtf8 e1 out p h1 hn hu, convert_eq_badUtf8 e2 out p h2 hn hu]
          exact ⟨rfl, rfl⟩
        | some cs =>
          cases hm1 : e1.mkdirOk out with
          | false =>
            have hm2 : e2.mkdirOk out = false := by rw [← hmk out]; exact hm1
            rw [convert_eq_mkdirErr e1 out p h1 hn hu hm1,
              convert_eq_mkdirErr e2 out p h2 hn hu hm2]
            exact ⟨rfl, rfl⟩
          | true =>
            have hm2 : e2.mkdirOk out = true := by rw [← hmk out]; exact hm1
            cases hs1 : e1.saveOk (deriveOutputPath out n) with
            | false =>
              have hs2 : e2.saveOk (deriveOutputPath out n) = false := by
                rw [← hsv (deriveOutputPath out n)]; exact hs1
              rw [convert_eq_saveErr e1 out p h1 hn hu hm1 hs1,
                convert_eq_saveErr e2 out p h2 hn hu hm2 hs2]
              exact ⟨rfl, rfl⟩
            | true =>
              have hs2 : e2.saveOk (deriveOutputPath out n) = true := by
                rw [← hsv (deriveOutputPath out n)]; exact hs1
              rw [convert_eq_ok e1 out p h1 hn hu hm1 hs1,
                convert_eq_ok e2 out p h2 hn hu hm2 hs2]
              exact ⟨rfl, by simp⟩

theorem processItems_sim
    (hdec : ∀ q, (e1.openImage q).isSome = (e2.openImage q).isSome)
    (hmk : ∀ q, e1.mkdirOk q = e2.mkdirOk q)
    (hsv : ∀ q, e1.saveOk q = e2.saveOk q) (out : RPath) (items : List WalkItem) :
    (processItems e1 out items).1 = (processItems e2 out items).1 ∧
      producedPaths (processItems e1 out items).2 =
        producedPaths (processItems e2 out items).2 := by
  induction items with
  | nil => exact ⟨rfl, rfl⟩
  | cons i rest ih =>
    cases i with
    | err => exact ⟨rfl, rfl⟩
    | entry p b =>
      by_cases hcond : (b && accepts p) = true
      · obtain ⟨hr, he⟩ := convert_sim e1 e2 hdec hmk hsv out p
        by_cases h2 : (convertToWebp e1 out p).1 = ConvResult.ok
        · have h2' : (convertToWebp e2 out p).1 = ConvResult.ok := by rw [← hr]; exact h2
          simp [processItems, hcond, h2, h2', ih.1, ih.2, he]
        · have h2' : ¬(convertToWebp e2 out p).1 = ConvResult.ok := by rw [← hr]; exact h2
          simp [processItems, hcond, h2, h2', hr, he]
      · simp [processItems, hcond, ih.1, ih.2]

end Sim

/-! ## The claimed classification, from the specification's words -/

/-- Index of the last `.` character in a character list, if any. -/
def lastDotIdxChars (cs : List Char) : Option Nat :=
  match cs.reverse.findIdx? (fun c => c == '.') with
  | none => none
  | some j => some (cs.length - 1 - j)

/-- The classification as the specification words it (stated for comparison
with the code's `accepts`): the extension is the text after the last `.` in
the final path segment, Rejected when no `.`-delimited extension is present,
otherwise lowercased and tested for membership in the accepted set. -/
def specClassify (p : RPath) : Bool :=
  match fileName p with
  | none => false
  | some nb =>
    match utf8Decode nb with
    | none => false
    | some cs =>
      match lastDotIdxChars cs with
      | none => false
      | some i => acceptedExts.contains (lowerChars (cs.drop (i + 1)))

/-- The classification with the leading-dot correction (Rust `extension`
semantics): the bytes after the last `.` of the final segment count as an
extension only when that `.` is not the segment's first byte; the extension
must decode as UTF-8, and its lowercase form must be in the accepted set. -/
def specClassifyAmended (p : RPath) : Bool :=
  match fileName p with
  | none => false
  | some nb =>
    match lastDotIdx nb with
    | none => false
    | some 0 => false
    | some i =>
      match utf8Decode (nb.drop (i + 1)) with
      | none => false
      | some cs => acceptedExts.contains (lowerChars cs)

/-- The final component of a path that ends in a `Normal` component. -/
theorem fileName_concat (q : RPath) (n : List Byte) :
    fileName (q ++ [Component.normal n]) = some n := by
  unfold fileName
  rw [List.getLast?_concat]

/-! ## Concrete fixture for witnesses -/

/-- A concrete environment: every path opens and decodes except one named
`bad.png`; the encoded output of an image is a one-byte tag; directory
creation and saving always succeed. -/
def envW : Env Nat where
  openImage := fun q =>
    if fileName q = some (strBytes "bad.png") then none else some q.length
  encode := fun i => [i]
  mkdirOk := fun _ => true
  saveOk := fun _ => true

/-- A second environment differing from `envW` only in the encoded bytes. -/
def envW2 : Env Nat where
  openImage := fun q =>
    if fileName q = some (strBytes "bad.png") then none else some q.length
  encode := fun i => [i, i]
  mkdirOk := fun _ => true
  saveOk := fun _ => true

/-- A concrete source tree:
`a/cat.jpg`, `b/cat.png`, `notes.txt`. -/
def treeW : FsTree :=
  FsTree.dir
    (FsEntries.cons (strBytes "a")
      (FsTree.dir (FsEntries.cons (strBytes "cat.jpg") (FsTree.file [1]) FsEntries.nil))
      (FsEntries.cons (strBytes "b")
        (FsTree.dir (FsEntries.cons (strBytes "cat.png") (FsTree.file [2]) FsEntries.nil))
        (FsEntries.cons (strBytes "notes.txt") (FsTree.file [3]) FsEntries.nil)))

/-- A concrete source root path. -/
def srcW : RPath := [Component.normal (strBytes "source")]

/-- A concrete output root path. -/
def outW : RPath := [Component.normal (strBytes "output")]

/-! ## The claims -/

/-- **C1.** For every source file accepted for conversion, the output
location is derived by taking only the file's base name, replacing its
extension with `webp`, and joining it directly under the job's output root;
the derivation is deterministic in the source path's file name and the
output root alone: every write attempted by `convert_to_webp` targets
`outputLocation`, `deriveOutputPath` is literally the stem of the base name
with `.webp` appended under the output root, and two paths with the same
base name derive the same output location. -/
theorem claim1 {Img : Type} (env : Env Img) (out p : RPath) :
    (∀ pw d, Effect.write pw d ∈ (convertToWebp env out p).2 →
      outputLocation out p = some pw) ∧
    (∀ pw, Effect.writeFailed pw ∈ (convertToWebp env out p).2 →
      outputLocation out p = some pw) ∧
    (∀ n, deriveOutputPath out n =
      out ++ [Component.normal (stemOfName n ++ [46] ++ webpBytes)]) ∧
    (∀ q, fileName q = fileName p → outputLocation out q = outputLocation out p) := by
  refine ⟨?_, ?_, fun n => rfl, fun q hq => by unfold outputLocation; rw [hq]⟩
  · intro pw d hmem
    rcases convert_cases env out p with hc | hc | hc | ⟨n, hn, hc | ⟨img, ho, hc⟩⟩ <;>
      rw [hc] at hmem <;> simp at hmem
    obtain ⟨rfl, -⟩ := hmem
    simp [outputLocation, hn]
  · intro pw hmem
    rcases convert_cases env out p with hc | hc | hc | ⟨n, hn, hc | ⟨img, ho, hc⟩⟩ <;>
      rw [hc] at hmem <;> simp at hmem
    subst hmem
    simp [outputLocation, hn]

theorem claim1_witness :
    outputLocation outW [Component.normal (strBytes "cat.jpg")] =
      some (outW ++ [Component.normal (strBytes "cat.webp")]) :=
  (claim1 envW outW [Component.normal (strBytes "cat.jpg")]).1
    (outW ++ [Component.normal (strBytes "cat.webp")]) [1] (by decide)

/-- **C2.** The converter is invoked exactly on the walk entries that are
regular files with lowercased extension in `{jpg, jpeg, png, gif}`: in any
run only such entries are ever handed to the converter, and in a run that
completes without error the invocations are exactly the accepted regular
files (in walk order) and the files produced are exactly their output
locations — every other entry is skipped and produces no output. -/
theorem claim2 {Img : Type} (env : Env Img) (root : Option FsTree) (src out : RPath) :
    (∀ q, q ∈ invokedPaths (runConvert env root src out).2 →
      q ∈ acceptedFiles (walkItems root src)) ∧
    ((runConvert env root src out).1 = ConvResult.ok →
      invokedPaths (runConvert env root src out).2 = acceptedFiles (walkItems root src) ∧
      producedPaths (runConvert env root src out).2 =
        (acceptedFiles (walkItems root src)).filterMap (outputLocation out)) := by
  constructor
  · exact processItems_invoked_sub env out (walkItems root src)
  · intro hok
    have hall := (processItems_ok_iff env out (walkItems root src)).1 hok
    have htr := processItems_trace env out (walkItems root src) hok
    unfold runConvert at htr ⊢
    obtain ⟨o1, o2, -⟩ := okTrace_obs env out (acceptedFiles (walkItems root src)) hall.2
    rw [htr]
    exact ⟨o1, o2⟩

theorem claim2_witness :
    invokedPaths (runConvert envW (some treeW) srcW outW).2 =
      acceptedFiles (walkItems (some treeW) srcW) ∧
    producedPaths (runConvert envW (some treeW) srcW outW).2 =
      (acceptedFiles (walkItems (some treeW) srcW)).filterMap (outputLocation outW) :=
  (claim2 envW (some treeW) srcW outW).2 (by decide)

/-- **C3.** `run` returns the first error encountered in stage order
(traversal, then per accepted file its decode / directory creation / encode),
and returns `Ok(())` if and only if traversal yielded no error and every
discovered accepted file converted without error. -/
theorem claim3 {Img : Type} (env : Env Img) (root : Option FsTree) (src out : RPath) :
    (runConvert env root src out).1 = firstFailure env out (walkItems root src) ∧
    ((runConvert env root src out).1 = ConvResult.ok ↔
      (WalkItem.err ∉ walkItems root src ∧
        ∀ p ∈ acceptedFiles (walkItems root src),
          (convertToWebp env out p).1 = ConvResult.ok)) :=
  ⟨processItems_fst env out (walkItems root src),
    processItems_ok_iff env out (walkItems root src)⟩

/-- **C4.** A call to `convert_to_webp` performs exactly one write attempt
when it succeeds; it performs zero write attempts when it fails at decode,
at output-path derivation (the `unwrap` panics), or at directory creation;
in particular a decode failure produces no effect at all (no directory
creation, no write). -/
theorem claim4 {Img : Type} (env : Env Img) (out p : RPath) :
    ((convertToWebp env out p).1 = ConvResult.ok →
      (attemptedPaths (convertToWebp env out p).2).length = 1) ∧
    ((convertToWebp env out p).1 = ConvResult.error ConvError.decodeErr ∨
      (convertToWebp env out p).1 = ConvResult.panic ∨
      (convertToWebp env out p).1 = ConvResult.error ConvError.mkdirErr →
      attemptedPaths (convertToWebp env out p).2 = []) ∧
    ((convertToWebp env out p).1 = ConvResult.error ConvError.decodeErr →
      (convertToWebp env out p).2 = []) := by
  rcases convert_cases env out p with hc | hc | hc | ⟨n, hn, hc | ⟨img, ho, hc⟩⟩ <;>
    rw [hc] <;> simp

theorem claim4_witness :
    (attemptedPaths (convertToWebp envW outW [Component.normal (strBytes "cat.jpg")]).2).length
        = 1 ∧
    (convertToWebp envW outW [Component.normal (strBytes "bad.png")]).2 = [] :=
  ⟨(claim4 envW outW [Component.normal (strBytes "cat.jpg")]).1 (by decide),
    (claim4 envW outW [Component.normal (strBytes "bad.png")]).2.2 (by decide)⟩

/-- **C5.** In a run that completes without error, every accepted source
file gives rise to exactly one attempted write, at its (single) output
location — the attempted-write list is the one-to-one image of the accepted
file list — and in every run (aborted or not) every attempted write is
preceded in the trace by a `create_dir_all` of the written path's parent
directory, so the parent exists before the write is attempted. -/
theorem claim5 {Img : Type} (env : Env Img) (root : Option FsTree) (src out : RPath) :
    ((runConvert env root src out).1 = ConvResult.ok →
      attemptedPaths (runConvert env root src out).2 =
        (acceptedFiles (walkItems root src)).filterMap (outputLocation out)) ∧
    mkdirBeforeWrites (runConvert env root src out).2 = true := by
  constructor
  · intro hok
    have hall := (processItems_ok_iff env out (walkItems root src)).1 hok
    have htr := processItems_trace env out (walkItems root src) hok
    unfold runConvert at htr ⊢
    rw [htr]
    exact (okTrace_obs env out (acceptedFiles (walkItems root src)) hall.2).2.2
  · exact mkdirCheck_processItems env out (walkItems root src) []

theorem claim5_witness :
    attemptedPaths (runConvert envW (some treeW) srcW outW).2 =
      (acceptedFiles (walkItems (some treeW) srcW)).filterMap (outputLocation outW) ∧
    mkdirBeforeWrites (runConvert envW (some treeW) srcW outW).2 = true :=
  ⟨(claim5 envW (some treeW) srcW outW).1 (by decide),
    (claim5 envW (some treeW) srcW outW).2⟩

/-- **C6 (counterexample).** The claim says the text after the last `.` of
the final segment is the extension — so the hidden file `.gif` would be
accepted — but the code rejects it: Rust's `Path::extension` yields `None`
when the only `.` is the segment's leading byte. -/
theorem claim6_counterexample :
    specClassify [Component.normal (strBytes ".gif")] = true ∧
    accepts [Component.normal (strBytes ".gif")] = false := by
  constructor <;> decide

/-- **C6 (amended).** The classification is total and deterministic (it is a
function), and accepts exactly when the final segment has a `.` that is not
its leading byte, the bytes after the last `.` decode as UTF-8, and their
lowercase form is in `{jpg, jpeg, png, gif}`: the code's `accepts` agrees
with the leading-dot-corrected reading of the claim everywhere. -/
theorem claim6 (p : RPath) : accepts p = specClassifyAmended p := by
  unfold accepts specClassifyAmended rpathExtension
  cases hf : fileName p with
  | none => rfl
  | some nb =>
    simp only [Option.some_bind, extOfName]
    by_cases hdd : nb = [46, 46]
    · subst hdd
      decide
    · rw [if_neg hdd]
      cases hld : lastDotIdx nb with
      | none => rfl
      | some i =>
        cases i with
        | zero => rfl
        | succ k => rfl

/-- **C7.** The set of output file paths is stable across runs on the same
unchanged source tree: two executions whose environments agree on which
files decode, on directory-creation success and on save success — but whose
encoders may produce different bytes — produce identical output path lists
and identical results. -/
theorem claim7 {I1 I2 : Type} (e1 : Env I1) (e2 : Env I2) (root : Option FsTree)
    (src out : RPath)
    (hdec : ∀ q, (e1.openImage q).isSome = (e2.openImage q).isSome)
    (hmk : ∀ q, e1.mkdirOk q = e2.mkdirOk q)
    (hsv : ∀ q, e1.saveOk q = e2.saveOk q) :
    producedPaths (runConvert e1 root src out).2 =
      producedPaths (runConvert e2 root src out).2 ∧
    (runConvert e1 root src out).1 = (runConvert e2 root src out).1 := by
  obtain ⟨h1, h2⟩ := processItems_sim e1 e2 hdec hmk hsv out (walkItems root src)
  exact ⟨h2, h1⟩

theorem claim7_witness :
    producedPaths (runConvert envW (some treeW) srcW outW).2 =
      producedPaths (runConvert envW2 (some treeW) srcW outW).2 ∧
    (runConvert envW (some treeW) srcW outW).1 =
      (runConvert envW2 (some treeW) srcW outW).1 :=
  claim7 envW envW2 (some treeW) srcW outW (fun _ => rfl) (fun _ => rfl) (fun _ => rfl)

/-- **C8.** When the source directory does not exist, the walk yields a
single `Err` item, so `run` fails with a traversal error having performed no
effect at all: no conversion attempted, no directory created, no file
written. -/
theorem claim8 {Img : Type} (env : Env Img) (src out : RPath) :
    runConvert env none src out = (ConvResult.error ConvError.walkErr, []) ∧
    producedPaths (runConvert env none src out).2 = [] ∧
    invokedPaths (runConvert env none src out).2 = [] :=
  ⟨rfl, rfl, rfl⟩

/-- A source tree with two subdirectories each holding one file:
`d1/n1` (contents `b1`) and `d2/n2` (contents `b2`). -/
def collisionTree (d1 n1 b1 d2 n2 b2 : List Byte) : FsTree :=
  FsTree.dir
    (FsEntries.cons d1
      (FsTree.dir (FsEntries.cons n1 (FsTree.file b1) FsEntries.nil))
      (FsEntries.cons d2
        (FsTree.dir (FsEntries.cons n2 (FsTree.file b2) FsEntries.nil))
        FsEntries.nil))

/-- **C9.** Two accepted source files in different subdirectories whose base
names share a stem map to the same output path `output_dir/<stem>.webp`; the
run completes without error, the later-processed file silently overwrites
the earlier output, and exactly one output file is present at that path
afterwards, holding the encoding of the file processed last. -/
theorem claim9 {Img : Type} (env : Env Img) (src out : RPath)
    (d1 d2 n1 n2 b1 b2 : List Byte) (i1 i2 : Img)
    (hstem : stemOfName n1 = stemOfName n2)
    (ha1 : accepts (src ++ [Component.normal d1, Component.normal n1]) = true)
    (ha2 : accepts (src ++ [Component.normal d2, Component.normal n2]) = true)
    (hu1 : (utf8Decode n1).isSome = true)
    (hu2 : (utf8Decode n2).isSome = true)
    (ho1 : env.openImage (src ++ [Component.normal d1, Component.normal n1]) = some i1)
    (ho2 : env.openImage (src ++ [Component.normal d2, Component.normal n2]) = some i2)
    (hmk : env.mkdirOk out = true)
    (hsv : env.saveOk (deriveOutputPath out n1) = true) :
    deriveOutputPath out n2 = deriveOutputPath out n1 ∧
    (runConvert env (some (collisionTree d1 n1 b1 d2 n2 b2)) src out).1 = ConvResult.ok ∧
    finalState (runConvert env (some (collisionTree d1 n1 b1 d2 n2 b2)) src out).2 =
      [(deriveOutputPath out n1, env.encode i2)] := by
  have hd : deriveOutputPath out n2 = deriveOutputPath out n1 := by
    unfold deriveOutputPath setExtension
    rw [hstem]
  have hn1 : fileName (src ++ [Component.normal d1, Component.normal n1]) = some n1 := by
    have e1 : src ++ [Component.normal d1, Component.normal n1] =
        (src ++ [Component.normal d1]) ++ [Component.normal n1] := by simp
    rw [e1, fileName_concat]
  have hn2 : fileName (src ++ [Component.normal d2, Component.normal n2]) = some n2 := by
    have e2 : src ++ [Component.normal d2, Component.normal n2] =
        (src ++ [Component.normal d2]) ++ [Component.normal n2] := by simp
    rw [e2, fileName_concat]
  obtain ⟨cs1, hcs1⟩ := Option.isSome_iff_exists.mp hu1
  obtain ⟨cs2, hcs2⟩ := Option.isSome_iff_exists.mp hu2
  have hsv2 : env.saveOk (deriveOutputPath out n2) = true := by rw [hd]; exact hsv
  have hc1 := convert_eq_ok env out (src ++ [Component.normal d1, Component.normal n1])
    ho1 hn1 hcs1 hmk hsv
  have hc2 := convert_eq_ok env out (src ++ [Component.normal d2, Component.normal n2])
    ho2 hn2 hcs2 hmk hsv2
  have hrun : runConvert env (some (collisionTree d1 n1 b1 d2 n2 b2)) src out =
      (ConvResult.ok,
        [Effect.convertCall (src ++ [Component.normal d1, Component.normal n1]),
          Effect.mkdirAll out,
          Effect.write (deriveOutputPath out n1) (env.encode i1),
          Effect.convertCall (src ++ [Component.normal d2, Component.normal n2]),
          Effect.mkdirAll out,
          Effect.write (deriveOutputPath out n1) (env.encode i2)]) := by
    simp [runConvert, walkItems, collisionTree, walkTree, walkEntries, processItems,
      ha1, ha2, hc1, hc2, hd]
  refine ⟨hd, ?_, ?_⟩
  · rw [hrun]
  · rw [hrun]
    simp [finalState, updateAssoc]

theorem claim9_witness :
    deriveOutputPath outW (strBytes "cat.png") = deriveOutputPath outW (strBytes "cat.jpg") ∧
    (runConvert envW
        (some (collisionTree (strBytes "a") (strBytes "cat.jpg") [1]
          (strBytes "b") (strBytes "cat.png") [2])) srcW outW).1 = ConvResult.ok ∧
    finalState (runConvert envW
        (some (collisionTree (strBytes "a") (strBytes "cat.jpg") [1]
          (strBytes "b") (strBytes "cat.png") [2])) srcW outW).2 =
      [(deriveOutputPath outW (strBytes "cat.jpg"), envW.encode 3)] :=
  claim9 envW srcW outW (strBytes "a") (strBytes "b") (strBytes "cat.jpg")
    (strBytes "cat.png") [1] [2] 3 3 (by decide) (by decide) (by decide) (by decide)
    (by decide) (by decide) (by decide) (by decide) (by decide)

/-- **C10.** `convert_to_webp` is not total over its `Result` type: there
are inputs that decode successfully on which it panics at an `unwrap`
instead of returning an error value — a file whose name is not valid UTF-8
(`to_str().unwrap()`), and a path with no final file-name component, such as
one ending in `..` (`file_name().unwrap()`), should it decode. -/
theorem claim10 :
    ∃ (env : Env Unit) (out p1 p2 : RPath),
      (env.openImage p1).isSome = true ∧
      (convertToWebp env out p1).1 = ConvResult.panic ∧
      (env.openImage p2).isSome = true ∧
      fileName p2 = none ∧
      (convertToWebp env out p2).1 = ConvResult.panic := by
  refine ⟨⟨fun _ => some (), fun _ => [], fun _ => true, fun _ => true⟩, [],
    [Component.normal [255]],
    [Component.normal (strBytes "a"), Component.parentDir], ?_, ?_, ?_, ?_, ?_⟩ <;>
    decide

end WebpConv
